import Mathlib

/-!
Verification development for the gruvbok step sequencer (C++ sources under
`src/`).  Each C++ function relevant to the checked claims is shallowly
embedded as an executable Lean definition; machine integers are modelled as
`Nat`/`Int` with explicit masking/modulus where the C++ width matters, and
the one `double` field (`MidiClockManager::clock_interval_ms_`) is modelled
with exact rationals (`ℚ`), noted at its definition.
-/

namespace Gruvbok

/-! ### Event (src/core/event.cpp)

An `Event` packs one switch bit and four 7-bit pot values into a `uint32_t`:
bit 0 = switch, bits 1-7 = pot 0, bits 8-14 = pot 1, bits 15-21 = pot 2,
bits 22-28 = pot 3, bits 29-31 unused.  The packed word is modelled as a
`Nat`; the C++ `~mask` on `uint32_t` is `4294967295 ^^^ mask`. -/

/-- Model of `Event::getSwitch`: `(data_ & SWITCH_MASK) != 0` with
`SWITCH_MASK = 0x00000001`. -/
def getSwitch (d : ℕ) : Bool := decide (d &&& 1 ≠ 0)

/-- Shift of pot `index` inside the packed word (`POT0_SHIFT = 1`,
`POT1_SHIFT = 8`, `POT2_SHIFT = 15`, `POT3_SHIFT = 22`; the `switch`
statement in the C++ leaves `shift = 0` for other indices, which are
filtered out before). -/
def potShift : Int → ℕ
  | 0 => 1
  | 1 => 8
  | 2 => 15
  | 3 => 22
  | _ => 0

/-- Model of `Event::getPot`: returns 0 for an out-of-range index, else
`(data_ >> shift) & POT_MASK` with `POT_MASK = 0x7F`. -/
def getPot (d : ℕ) (index : Int) : ℕ :=
  if index < 0 ∨ index > 3 then 0
  else (d >>> potShift index) &&& 127

/-- Model of `Event::setPot`: no-op for an out-of-range index; otherwise the
value (a `uint8_t`) is clamped by `std::min(value, 127)` and the word is
updated by `data_ = (data_ & ~mask) | (value << shift)` with
`mask = POT_MASK << shift`. -/
def setPot (d : ℕ) (index : Int) (value : ℕ) : ℕ :=
  if index < 0 ∨ index > 3 then d
  else
    let v := min value 127
    let s := potShift index
    let mask : ℕ := 127 <<< s
    (d &&& (4294967295 ^^^ mask)) ||| (v <<< s)

/-! ### PlaybackState (src/core/playback_state.cpp) -/

/-- Model of `std::clamp(v, lo, hi)`: `v < lo ? lo : hi < v ? hi : v`. -/
def stdClamp (v lo hi : Int) : Int :=
  if v < lo then lo else if hi < v then hi else v

/-- Model of `PlaybackState::calculateStepInterval`:
`step_interval_ms_ = (60000 / tempo_) / 4` (C++ `int` division; the result
is stored into a `uint32_t`, hence `toNat`). -/
def calculateStepInterval (tempo : Int) : ℕ :=
  (((60000 : Int) / tempo) / 4).toNat

/-- State of `PlaybackState` relevant to tempo handling (`tempo_`,
`step_interval_ms_`, and the debounced-reinit bookkeeping that
`setTempo` touches). -/
structure PlaybackState where
  tempo : Int
  step_interval_ms : ℕ
  lua_reinit_pending : Bool
  last_tempo_change_time : ℕ
deriving DecidableEq

/-- Model of `PlaybackState::setTempo`: clamp to 1..1000, recompute the step
interval, arm the debounced Lua-reinit flag stamped with the current
hardware time (`now` stands for `hardware_->getMillis()`). -/
def PlaybackState.setTempo (st : PlaybackState) (bpm : Int) (now : ℕ) : PlaybackState :=
  let t := stdClamp bpm 1 1000
  { st with
      tempo := t
      step_interval_ms := calculateStepInterval t
      lua_reinit_pending := true
      last_tempo_change_time := now }

/-! ### Event store accessors (src/core/pattern.cpp, src/core/song.cpp)

Each accessor guards its index twice in the C++: with exceptions enabled
(the desktop build, `NO_EXCEPTIONS` undefined) an out-of-range index throws
`std::out_of_range`; in `NO_EXCEPTIONS` (embedded) builds the throw is
compiled out and the index is clamped by
`std::max(0, std::min(i, N - 1))`.  Both variants are modelled: the
clamping accessor, and an `Except`-valued accessor for the throwing
build. -/

/-- The clamp `std::max(0, std::min(i, N - 1))` applied to an `int` index,
as a `Nat` result. -/
def clampIndex (i : Int) (n : ℕ) : ℕ :=
  (max 0 (min i ((n : Int) - 1))).toNat

lemma clampIndex_lt (i : Int) (n : ℕ) (hn : 0 < n) : clampIndex i n < n := by
  unfold clampIndex
  rcases le_or_lt i 0 with h | h
  · have : max 0 (min i ((n : Int) - 1)) ≤ (n : Int) - 1 := by
      rcases le_total 0 ((n : Int) - 1) with h1 | h1 <;> omega
    omega
  · have : max 0 (min i ((n : Int) - 1)) ≤ (n : Int) - 1 := by
      have : (0 : Int) ≤ (n : Int) - 1 := by omega
      omega
    omega

/-- Model of `Track::getEvent` in a `NO_EXCEPTIONS` build: clamp the step to
0..15 and read the events array (`NUM_EVENTS = 16`). -/
def trackGetEvent {α : Type} (events : Fin 16 → α) (step : Int) : α :=
  events ⟨clampIndex step 16, clampIndex_lt step 16 (by norm_num)⟩

/-- Model of `Track::getEvent` in the exceptions-enabled build: throw
`std::out_of_range` for `step < 0 || step >= NUM_EVENTS`, else return the
array element (the clamp that follows the throw check is the identity
there). -/
def trackGetEventExc {α : Type} (events : Fin 16 → α) (step : Int) : Except String α :=
  if step < 0 ∨ 16 ≤ step then Except.error "Track step out of range"
  else Except.ok (trackGetEvent events step)

/-- Model of `Pattern::getTrack` in a `NO_EXCEPTIONS` build
(`NUM_TRACKS = 8`). -/
def patternGetTrack {α : Type} (tracks : Fin 8 → α) (track_num : Int) : α :=
  tracks ⟨clampIndex track_num 8, clampIndex_lt track_num 8 (by norm_num)⟩

/-- Model of `Pattern::getTrack` in the exceptions-enabled build. -/
def patternGetTrackExc {α : Type} (tracks : Fin 8 → α) (track_num : Int) : Except String α :=
  if track_num < 0 ∨ 8 ≤ track_num then Except.error "Track number out of range"
  else Except.ok (patternGetTrack tracks track_num)

/-- Model of `Mode::getPattern` in a `NO_EXCEPTIONS` build
(`NUM_PATTERNS = 32`). -/
def modeGetPattern {α : Type} (patterns : Fin 32 → α) (pattern_num : Int) : α :=
  patterns ⟨clampIndex pattern_num 32, clampIndex_lt pattern_num 32 (by norm_num)⟩

/-- Model of `Mode::getPattern` in the exceptions-enabled build. -/
def modeGetPatternExc {α : Type} (patterns : Fin 32 → α) (pattern_num : Int) :
    Except String α :=
  if pattern_num < 0 ∨ 32 ≤ pattern_num then Except.error "Pattern number out of range"
  else Except.ok (modeGetPattern patterns pattern_num)

/-- Model of `Song::getMode` in a `NO_EXCEPTIONS` build (`NUM_MODES = 15`). -/
def songGetMode {α : Type} (modes : Fin 15 → α) (mode_num : Int) : α :=
  modes ⟨clampIndex mode_num 15, clampIndex_lt mode_num 15 (by norm_num)⟩

/-- Model of `Song::getMode` in the exceptions-enabled build. -/
def songGetModeExc {α : Type} (modes : Fin 15 → α) (mode_num : Int) : Except String α :=
  if mode_num < 0 ∨ 15 ≤ mode_num then Except.error "Mode number out of range"
  else Except.ok (songGetMode modes mode_num)

/-! ### Song grid and binary persistence (src/core/song.cpp)

The grid is `NUM_MODES × NUM_PATTERNS × NUM_TRACKS × NUM_EVENTS`
(= 15 × 32 × 8 × 16 = 61440) packed `uint32_t` Event words; it is modelled
as a total function on the in-range coordinates.  `saveBinary` writes the
magic word, the version word, and then one 32-bit word per event in the
nested loop order mode → pattern → track → step; the file is modelled as
the list of those 32-bit words (each word is 4 bytes on disk, so the
two header words are the 8-byte header).  `loadBinary`'s k-th
`file.read` targets the k-th word of that list (a failed read past the
end leaves the zero-initialised `packed` variable, hence `getD _ 0`). -/

/-- The packed-grid state of a `Song`: one 32-bit Event word per
(mode, pattern, track, step). -/
def Song : Type := Fin 15 → Fin 32 → Fin 8 → Fin 16 → ℕ

/-- The all-zero `Song` produced by the constructor (`Song::clear` zeroes
every event). -/
def zeroSong : Song := fun _ _ _ _ => 0

/-- The event words in the serialization loop order of `Song::saveBinary` /
`Song::loadBinary`: mode 0..14 → pattern 0..31 → track 0..7 → step 0..15. -/
def gridWords (s : Song) : List ℕ :=
  (List.finRange 15).flatMap fun m =>
    (List.finRange 32).flatMap fun p =>
      (List.finRange 8).flatMap fun t =>
        (List.finRange 16).map fun st => s m p t st

/-- Flat position of the word for (mode, pattern, track, step) inside
`gridWords`, matching the nested loop order. -/
def flatIdx (m : Fin 15) (p : Fin 32) (t : Fin 8) (st : Fin 16) : ℕ :=
  ((m.val * 32 + p.val) * 8 + t.val) * 16 + st.val

/-- Model of `Song::saveBinary`: magic `0x47525642` ("GRVB"), version 1,
then the 61440 packed event words in loop order. -/
def saveBinary (s : Song) : List ℕ :=
  0x47525642 :: 1 :: gridWords s

/-- Model of `Song::loadBinary`: reject a wrong magic word, then a wrong
version, before any grid write (returning `false` with the song
untouched); otherwise overwrite every event's raw word with the
corresponding stream word (`Event::setRawData` stores into a `uint32_t`,
hence the `% 2 ^ 32`). -/
def loadBinary (stream : List ℕ) (s : Song) : Bool × Song :=
  if stream.getD 0 0 ≠ 0x47525642 then (false, s)
  else if stream.getD 1 0 ≠ 1 then (false, s)
  else (true, fun m p t st => stream.getD (2 + flatIdx m p t st) 0 % 2 ^ 32)

/-! ### Mode0Sequencer (src/core/mode0_sequencer.cpp) -/

/-- Model of `Mode0Sequencer::calculateLoopLength`: scan mode 0 / pattern 0
/ track 0 over steps 0..15, keep the highest step whose switch is on in
`max_step` (initialised to `-1`), and store
`std::clamp(max_step + 1, 1, 16)`. -/
def calculateLoopLength (song : Song) : Int :=
  let max_step : Int :=
    (List.finRange 16).foldl
      (fun acc step => if getSwitch (song 0 0 0 step) then (step.val : Int) else acc)
      (-1)
  stdClamp (max_step + 1) 1 16

/-! ### Engine::processStep pattern selection (src/core/engine.cpp) -/

/-- The fields of `Engine` read by the pattern-selection code at the top of
the per-mode loop in `Engine::processStep`. -/
structure EngineState where
  current_mode : Int
  current_pattern : Int
  mode_pattern_overrides : Fin 15 → Int

/-- Model of the pattern choice in `Engine::processStep`:
`pattern_to_play = (mode_pattern_overrides_[mode_num] >= 0) ?
mode_pattern_overrides_[mode_num] : current_pattern_`. -/
def processStepPatternToPlay (st : EngineState) (mode_num : Fin 15) : Int :=
  if st.mode_pattern_overrides mode_num ≥ 0 then st.mode_pattern_overrides mode_num
  else st.current_pattern

/-! ### MidiClockManager (src/core/midi_clock_manager.cpp)

`clock_interval_ms_` is a C++ `double`; it is modelled as an exact rational
(for the concrete runs proved below the `double` rounding of
`60000.0 / 120 / 24` floors to the same integers).  The C++
`(uint32_t)(clock_pulse_count_ * clock_interval_ms_)` truncates the
nonnegative product, i.e. takes its floor. -/

/-- Model of `MidiClockManager::calculateClockInterval`:
`(60000.0 / tempo) / 24.0`. -/
def calculateClockInterval (tempo : Int) : ℚ :=
  (60000 : ℚ) / (tempo : ℚ) / 24

/-- State of `MidiClockManager`.  The constructor initialises
`clock_start_time_ = 0`, `clock_pulse_count_ = 0`, tempo 120, and computes
the interval; only `start()` re-anchors `clock_start_time_`. -/
structure MidiClockState where
  tempo : Int
  clock_start_time : ℕ
  clock_pulse_count : ℕ
  clock_interval_ms : ℚ

/-- The state built by the `MidiClockManager` constructor (no `start()`
call yet). -/
def mcmInit : MidiClockState :=
  { tempo := 120
    clock_start_time := 0
    clock_pulse_count := 0
    clock_interval_ms := calculateClockInterval 120 }

/-- The `while (current_time >= next_clock_time)` loop of
`MidiClockManager::update`, counting how many clock pulses (0xF8 bytes)
are sent: starting from pulse count `k`, a pulse is sent while
`clock_start_time + (uint32_t)(k * interval) <= now`.  The hypothesis
`1 ≤ q` (true for every tempo ≤ 2500 BPM, in particular the default 120)
bounds the loop. -/
def clockPulses (now start : ℕ) (q : ℚ) (hq : 1 ≤ q) (k : ℕ) : ℕ :=
  if h : start + (⌊(k : ℚ) * q⌋).toNat ≤ now then
    clockPulses now start q hq (k + 1) + 1
  else 0
termination_by now + 1 - k
decreasing_by
  have hk : ((k : ℤ) : ℚ) ≤ (k : ℚ) * q := by
    have := le_mul_of_one_le_right (show (0 : ℚ) ≤ (k : ℚ) by positivity) hq
    exact_mod_cast this
  have hfl : (k : ℤ) ≤ ⌊(k : ℚ) * q⌋ := Int.le_floor.mpr hk
  omega

/-- Model of `MidiClockManager::update` restricted to its observable
output: the number of 0xF8 clock pulses emitted at hardware time `now`. -/
def mcmUpdatePulses (st : MidiClockState) (now : ℕ) (hq : 1 ≤ st.clock_interval_ms) : ℕ :=
  clockPulses now st.clock_start_time st.clock_interval_ms hq st.clock_pulse_count

/-! ### MidiScheduler (src/hardware/midi_scheduler.cpp)

The 64-slot fixed buffer is a 64-element list of slots; `event_count_`
is kept verbatim.  Emission of a message is modelled by appending its byte
list to the output list (`hardware_->sendMidiMessage`, sent when
`use_external_midi_` is set; the internal-audio sink is disabled in the
default configuration modelled here, `audio_output_ = nullptr`). -/

/-- A scheduled (relative-time) MIDI event: `data`, `delta_ms`,
`channel`. -/
structure ScheduledMidiEvent where
  data : List ℕ
  delta_ms : ℕ
  channel : ℕ
deriving DecidableEq

/-- One slot of the scheduler buffer (`AbsoluteMidiEvent`): message bytes,
absolute time, active flag.  The `MidiMessage` timestamp always equals
`absolute_time_ms` in the C++, so it is not duplicated. -/
structure AbsoluteMidiEvent where
  data : List ℕ
  absolute_time_ms : ℕ
  active : Bool
deriving DecidableEq

/-- The default-constructed slot (`absolute_time_ms(0), active(false)`). -/
def emptySlot : AbsoluteMidiEvent := ⟨[], 0, false⟩

/-- Scheduler state: the 64-slot buffer, `event_count_`, and the
`use_external_midi_` routing flag. -/
structure MidiScheduler where
  event_buffer : List AbsoluteMidiEvent
  event_count : ℕ
  use_external_midi : Bool
deriving DecidableEq

/-- The scheduler as constructed: all 64 slots inactive, count 0, external
MIDI routing on (the constructor default). -/
def mkScheduler : MidiScheduler :=
  { event_buffer := List.replicate 64 emptySlot
    event_count := 0
    use_external_midi := true }

/-- Walk of `MidiScheduler::findFreeSlot` from index `i`. -/
def findFreeSlotFrom : List AbsoluteMidiEvent → ℕ → Int
  | [], _ => -1
  | s :: rest, i => if ¬ s.active then (i : Int) else findFreeSlotFrom rest (i + 1)

/-- Model of `MidiScheduler::findFreeSlot`: index of the first inactive
slot, or -1 when the buffer is full. -/
def findFreeSlot (buf : List AbsoluteMidiEvent) : Int :=
  findFreeSlotFrom buf 0

/-- The channel-nibble rewrite in `MidiScheduler::schedule`: for a
non-empty message, `data[0] = (data[0] & 0xF0) | (channel & 0x0F)`. -/
def applyChannel (data : List ℕ) (channel : ℕ) : List ℕ :=
  match data with
  | [] => []
  | b :: rest => ((b &&& 0xF0) ||| (channel &&& 0x0F)) :: rest

/-- The slot written by `schedule` for event `e` arriving at time `now`
(`absolute_time = current_time + delta_ms` in `uint32_t` arithmetic). -/
def mkAbs (now : ℕ) (e : ScheduledMidiEvent) : AbsoluteMidiEvent :=
  ⟨applyChannel e.data e.channel, (now + e.delta_ms) % 2 ^ 32, true⟩

/-- The inner `while` of `MidiScheduler::sortEvents`: starting from
`j = j1 - 1`, shift right every active earlier slot whose time exceeds
`temp`'s, then store `temp` at `j + 1`. -/
def innerShift (temp : AbsoluteMidiEvent) : ℕ → List AbsoluteMidiEvent → List AbsoluteMidiEvent
  | 0, buf => buf.set 0 temp
  | j + 1, buf =>
    if (buf.getD j emptySlot).active ∧
        (buf.getD j emptySlot).absolute_time_ms > temp.absolute_time_ms then
      innerShift temp j (buf.set (j + 1) (buf.getD j emptySlot))
    else buf.set (j + 1) temp

/-- One iteration of the outer `for` of `MidiScheduler::sortEvents`:
inactive slots are skipped, an active slot is insertion-shifted. -/
def sortPass (buf : List AbsoluteMidiEvent) (i : ℕ) : List AbsoluteMidiEvent :=
  let si := buf.getD i emptySlot
  if si.active then innerShift si i buf else buf

/-- Model of `MidiScheduler::sortEvents`: the outer loop runs
`i = 1 .. MAX_QUEUED_EVENTS - 1 = 63`. -/
def sortEvents (buf : List AbsoluteMidiEvent) : List AbsoluteMidiEvent :=
  (List.range' 1 63).foldl sortPass buf

/-- Model of `MidiScheduler::schedule`: drop the event if no slot is free;
otherwise write the slot, bump `event_count_`, and keep the buffer sorted
(the sort runs only when more than one event is queued). -/
def schedule (st : MidiScheduler) (now : ℕ) (e : ScheduledMidiEvent) : MidiScheduler :=
  let slot := findFreeSlot st.event_buffer
  if slot < 0 then st
  else
    let buf := st.event_buffer.set slot.toNat (mkAbs now e)
    let count := st.event_count + 1
    if count > 1 then
      { st with event_buffer := sortEvents buf, event_count := count }
    else
      { st with event_buffer := buf, event_count := count }

/-- The scan loop of `MidiScheduler::update`: walk slots from index `i`
while `i < MAX_QUEUED_EVENTS && event_count_ > 0`; skip inactive slots;
send and free a due slot; break at the first active future slot.  `ext`
is `use_external_midi_` (a send reaches the hardware only when it is
set).  The loop bound `i < 64` is carried structurally as the number
`rem = 64 - i` of slots still in range.  Returns the final buffer, count,
and emitted messages. -/
def updGo (now : ℕ) (ext : Bool) :
    ℕ → ℕ → List AbsoluteMidiEvent → ℕ → List (List ℕ) →
      List AbsoluteMidiEvent × ℕ × List (List ℕ)
  | 0, _, buf, count, acc => (buf, count, acc)
  | rem + 1, i, buf, count, acc =>
    if 0 < count then
      let s := buf.getD i emptySlot
      if s.active then
        if s.absolute_time_ms ≤ now then
          updGo now ext rem (i + 1) (buf.set i { s with active := false }) (count - 1)
            (acc ++ if ext then [s.data] else [])
        else (buf, count, acc)
      else updGo now ext rem (i + 1) buf count acc
    else (buf, count, acc)

/-- Model of `MidiScheduler::update` at hardware time `now`: the updated
scheduler and the list of messages passed to
`hardware_->sendMidiMessage`, in emission order. -/
def update (st : MidiScheduler) (now : ℕ) : MidiScheduler × List (List ℕ) :=
  let r := updGo now st.use_external_midi 64 0 st.event_buffer st.event_count []
  ({ st with event_buffer := r.1, event_count := r.2.1 }, r.2.2)

/-- Model of `MidiScheduler::noteOn`:
`{0x90 | (channel & 0x0F), pitch & 0x7F, velocity & 0x7F}`. -/
def noteOn (pitch velocity channel : ℕ) (delta : ℕ) : ScheduledMidiEvent :=
  ⟨[(0x90 ||| (channel &&& 0x0F)), pitch &&& 0x7F, velocity &&& 0x7F], delta, channel⟩

/-- A sequence of `schedule` calls (each paired with the hardware time at
which it happens), with no intervening `update`. -/
def runSchedules (st : MidiScheduler) (l : List (ℕ × ScheduledMidiEvent)) : MidiScheduler :=
  l.foldl (fun st p => schedule st p.1 p.2) st

/-- A sequence of `update` calls at the given hardware times, collecting
all emitted messages in order. -/
def runUpdates (st : MidiScheduler) (ts : List ℕ) : MidiScheduler × List (List ℕ) :=
  ts.foldl (fun r t => let u := update r.1 t; (u.1, r.2 ++ u.2)) (st, [])

/-- Stable insertion of a slot into a list ordered by
`absolute_time_ms`: the new slot goes after every slot whose time is ≤
its own (the comparison the C++ insertion sort uses is strict `>`). -/
def insLE (v : AbsoluteMidiEvent) : List AbsoluteMidiEvent → List AbsoluteMidiEvent
  | [] => [v]
  | x :: xs =>
    if x.absolute_time_ms > v.absolute_time_ms then v :: x :: xs
    else x :: insLE v xs

/-- The mathematical stable sort by absolute time (insertion sort keeping
equal-time elements in arrival order), used as the specification that the
scheduler's emission order is compared against. -/
def stableSortByTime (l : List AbsoluteMidiEvent) : List AbsoluteMidiEvent :=
  l.foldl (fun acc v => insLE v acc) []

/-- A concrete engine state with `current_mode = 1` (a non-zero edit mode),
`current_pattern = 3`, and a pattern override `5` armed for mode 2. -/
def c6State : EngineState :=
  ⟨1, 3, fun m => if m.val = 2 then 5 else -1⟩

/-- A concrete Song with one nonzero event word, for the C5 witness. -/
def demoSong : Song :=
  fun m p t st => if m.val = 1 ∧ p.val = 2 ∧ t.val = 3 ∧ st.val = 4 then 291 else 0

/-- A scheduler whose 64 slots are all active (events due at time 5). -/
def fullSched : MidiScheduler :=
  ⟨List.replicate 64 ⟨[7], 5, true⟩, 64, true⟩

/-- Ordering of scheduler slots by absolute time. -/
def slotLE (u v : AbsoluteMidiEvent) : Prop :=
  u.absolute_time_ms ≤ v.absolute_time_ms

/-- The due-test of `MidiScheduler::update`:
`absolute_time_ms <= current_time`. -/
def dueBy (now : ℕ) (s : AbsoluteMidiEvent) : Bool :=
  s.absolute_time_ms ≤ now

/-- Freeing a slot (`event_buffer_[i].active = false`). -/
def deactivate (s : AbsoluteMidiEvent) : AbsoluteMidiEvent :=
  { s with active := false }

/-- Shape of a scheduler reached from the empty scheduler by `schedule`
calls only: the active events occupy a time-sorted prefix of the buffer
(in stable order), the rest being untouched default slots. -/
def SchedShape (st : MidiScheduler) (A : List AbsoluteMidiEvent) : Prop :=
  st.event_buffer = A ++ List.replicate (64 - A.length) emptySlot ∧
  st.event_count = A.length ∧
  A.length ≤ 64 ∧
  (∀ s ∈ A, s.active = true) ∧
  A.Pairwise slotLE ∧
  st.use_external_midi = true

/-- Shape of a scheduler during a drain phase (`update` calls only): an
inactive prefix `H` of already-freed slots, then the remaining active
events `R`, then untouched default slots. -/
def DrainShape (st : MidiScheduler) (H R : List AbsoluteMidiEvent) : Prop :=
  st.event_buffer = H ++ R ++ List.replicate (64 - H.length - R.length) emptySlot ∧
  st.event_count = R.length ∧
  H.length + R.length ≤ 64 ∧
  (∀ s ∈ H, s.active = false) ∧
  (∀ s ∈ R, s.active = true) ∧
  st.use_external_midi = true

/-- Concrete events for the C4 counterexample trace: note-on messages with
deltas 10, 20, 30 and 20 ms. -/
def c4e1 : ScheduledMidiEvent := ⟨[144, 60, 100], 10, 0⟩

/-- Second counterexample event (delta 20 ms). -/
def c4e2 : ScheduledMidiEvent := ⟨[144, 62, 100], 20, 0⟩

/-- Third counterexample event (delta 30 ms, scheduled at time 0, so due at
absolute time 30). -/
def c4e3 : ScheduledMidiEvent := ⟨[144, 64, 100], 30, 0⟩

/-- Fourth counterexample event (delta 20 ms, scheduled at time 20, so due
at absolute time 40, after `c4e3`). -/
def c4e4 : ScheduledMidiEvent := ⟨[144, 65, 100], 20, 0⟩

/-! ## Theorems -/

/-! ### Bit-level helper lemmas for `setPot` -/

lemma testBit_ge7 (v k : ℕ) (hv : v < 128) (hk : 7 ≤ k) : v.testBit k = false := by
  apply Nat.testBit_lt_two_pow
  calc v < 128 := hv
    _ = 2 ^ 7 := by norm_num
    _ ≤ 2 ^ k := Nat.pow_le_pow_right (by norm_num) hk

lemma setAt_extract (d v s M : ℕ) (hM : M = 4294967295 ^^^ (127 <<< s)) (hv : v < 128)
    (hs : s + 7 ≤ 32) :
    (((d &&& M) ||| (v <<< s)) >>> s) &&& 127 = v := by
  subst hM
  apply Nat.eq_of_testBit_eq
  intro k
  rw [show (4294967295 : ℕ) = 2 ^ 32 - 1 by norm_num,
      show (127 : ℕ) = 2 ^ 7 - 1 by norm_num]
  simp only [Nat.testBit_and, Nat.testBit_or, Nat.testBit_xor, Nat.testBit_shiftLeft,
    Nat.testBit_shiftRight, Nat.testBit_two_pow_sub_one, ge_iff_le, Nat.le_add_right,
    Nat.add_sub_cancel_left]
  by_cases hk : k < 7
  · have h32 : s + k < 32 := by omega
    simp [h32, hk]
  · have hvk : v.testBit k = false := testBit_ge7 v k hv (by omega)
    simp [hk, hvk]

lemma setAt_other (d v s t M : ℕ) (hM : M = 4294967295 ^^^ (127 <<< s)) (hv : v < 128)
    (ht : t + 7 ≤ 32) (hdisj : t + 7 ≤ s ∨ s + 7 ≤ t) :
    (((d &&& M) ||| (v <<< s)) >>> t) &&& 127 = (d >>> t) &&& 127 := by
  subst hM
  apply Nat.eq_of_testBit_eq
  intro k
  rw [show (4294967295 : ℕ) = 2 ^ 32 - 1 by norm_num,
      show (127 : ℕ) = 2 ^ 7 - 1 by norm_num]
  simp only [Nat.testBit_and, Nat.testBit_or, Nat.testBit_xor, Nat.testBit_shiftLeft,
    Nat.testBit_shiftRight, Nat.testBit_two_pow_sub_one, ge_iff_le]
  by_cases hk : k < 7
  · have h32 : t + k < 32 := by omega
    rcases hdisj with h | h
    · have hns : ¬ s ≤ t + k := by omega
      simp [h32, hk, hns]
    · have hs : s ≤ t + k := by omega
      have h7 : ¬ (t + k - s < 7) := by omega
      have hvk : v.testBit (t + k - s) = false := testBit_ge7 v _ hv (by omega)
      simp [h32, hk, hs, h7, hvk]
  · simp [hk]

lemma setAt_switch (d v s M : ℕ) (hM : M = 4294967295 ^^^ (127 <<< s)) (hs : 1 ≤ s) :
    (((d &&& M) ||| (v <<< s))) &&& 1 = d &&& 1 := by
  subst hM
  apply Nat.eq_of_testBit_eq
  intro k
  rw [show (4294967295 : ℕ) = 2 ^ 32 - 1 by norm_num,
      show (127 : ℕ) = 2 ^ 7 - 1 by norm_num,
      show (1 : ℕ) = 2 ^ 1 - 1 by norm_num]
  simp only [Nat.testBit_and, Nat.testBit_or, Nat.testBit_xor, Nat.testBit_shiftLeft,
    Nat.testBit_shiftRight, Nat.testBit_two_pow_sub_one, ge_iff_le]
  by_cases hk : k < 1
  · have hk0 : k = 0 := by omega
    have hs0 : ¬ s ≤ 0 := by omega
    simp [hk0, hs0, show (0:ℕ) < 32 by norm_num]
  · simp [hk]

lemma setAt_high (d v s M : ℕ) (hM : M = 4294967295 ^^^ (127 <<< s)) (hv : v < 128)
    (hs : s + 7 ≤ 29) (hd : d >>> 29 = 0) :
    (((d &&& M) ||| (v <<< s))) >>> 29 = 0 := by
  subst hM
  apply Nat.eq_of_testBit_eq
  intro k
  have hdk : d.testBit (29 + k) = false := by
    have := congrArg (fun x => Nat.testBit x k) hd
    simpa [Nat.testBit_shiftRight] using this
  have hvk : v.testBit (29 + k - s) = false := testBit_ge7 v _ hv (by omega)
  simp only [Nat.testBit_and, Nat.testBit_or, Nat.testBit_xor, Nat.testBit_shiftLeft,
    Nat.testBit_shiftRight, Nat.testBit_two_pow_sub_one, ge_iff_le, Nat.zero_testBit]
  simp [hdk, hvk]

lemma getSwitch_congr (a b : ℕ) (h : a &&& 1 = b &&& 1) : getSwitch a = getSwitch b := by
  unfold getSwitch
  rw [h]

/-- C1: for every packed Event word `d`, pot index `i` in 0..3 and uint8
value, after `setPot i value` the pot `i` reads back `min value 127`,
every other pot `j` is unchanged, the switch bit is unchanged, and the
unused bits 29..31 stay zero if they were zero. -/
theorem C1_setPot_frame (d value : ℕ) (i j : Int)
    (hi0 : 0 ≤ i) (hi3 : i ≤ 3) (hj0 : 0 ≤ j) (hj3 : j ≤ 3) (hne : j ≠ i)
    (hval : value < 256) :
    getPot (setPot d i value) i = min value 127 ∧
    getPot (setPot d i value) j = getPot d j ∧
    getSwitch (setPot d i value) = getSwitch d ∧
    (d >>> 29 = 0 → setPot d i value >>> 29 = 0) := by
  clear hval
  have hv : min value 127 < 128 := lt_of_le_of_lt (Nat.min_le_right _ _) (by norm_num)
  interval_cases i <;> interval_cases j <;>
    (try exact absurd rfl hne) <;>
    refine ⟨?_, ?_, ?_, ?_⟩ <;>
    norm_num [setPot, getPot, potShift] <;>
    first
      | exact setAt_extract d _ _ _ (by decide) hv (by norm_num)
      | exact setAt_other d _ _ _ _ (by decide) hv (by norm_num) (by norm_num)
      | (intro h; exact setAt_high d _ _ _ (by decide) hv (by norm_num) h)
      | exact getSwitch_congr _ _ (setAt_switch d _ _ _ (by decide) (by norm_num))

/-- Witness for C1 at the concrete word 0x12345678, pot 1, value 200. -/
theorem C1_setPot_frame_witness :
    getPot (setPot 305419896 1 200) 1 = min 200 127 ∧
    getPot (setPot 305419896 1 200) 2 = getPot 305419896 2 ∧
    getSwitch (setPot 305419896 1 200) = getSwitch 305419896 ∧
    (305419896 >>> 29 = 0 → setPot 305419896 1 200 >>> 29 = 0) :=
  C1_setPot_frame 305419896 200 1 2 (by decide) (by decide) (by decide) (by decide)
    (by decide) (by decide)

/-! ### C2: PlaybackState::setTempo -/

lemma stdClamp_eq_max_min (v lo hi : Int) (h : lo ≤ hi) :
    stdClamp v lo hi = max lo (min v hi) := by
  unfold stdClamp
  split_ifs <;> omega

/-- C2: `setTempo bpm` stores `clamp(bpm, 1, 1000)` (so 0 ↦ 1 and
2000 ↦ 1000) and recomputes the step interval as `(60000 / tempo) / 4`
with integer division (125 ms at 120 BPM, 250 ms at 60 BPM, 62 ms at
240 BPM). -/
theorem C2_setTempo_clamps_and_interval (st : PlaybackState) (bpm : Int) (now : ℕ) :
    (st.setTempo bpm now).tempo = max 1 (min bpm 1000) ∧
    (st.setTempo bpm now).step_interval_ms = 60000 / (max 1 (min bpm 1000)).toNat / 4 ∧
    (st.setTempo 0 now).tempo = 1 ∧
    (st.setTempo 2000 now).tempo = 1000 ∧
    (st.setTempo 120 now).step_interval_ms = 125 ∧
    (st.setTempo 60 now).step_interval_ms = 250 ∧
    (st.setTempo 240 now).step_interval_ms = 62 := by
  have hc : stdClamp bpm 1 1000 = max 1 (min bpm 1000) := stdClamp_eq_max_min _ _ _ (by norm_num)
  have hpos : 1 ≤ stdClamp bpm 1 1000 := by unfold stdClamp; split_ifs <;> omega
  have key : ∀ t : Int, 1 ≤ t → calculateStepInterval t = 60000 / t.toNat / 4 := by
    intro t h1
    obtain ⟨u, rfl⟩ : ∃ u : ℕ, t = (u : Int) :=
      ⟨t.toNat, (Int.toNat_of_nonneg (by omega)).symm⟩
    unfold calculateStepInterval
    rw [show (60000 : Int) = ((60000 : ℕ) : Int) from rfl, ← Int.natCast_div,
      show (4 : Int) = ((4 : ℕ) : Int) from rfl, ← Int.natCast_div, Int.toNat_natCast,
      Int.toNat_natCast]
  refine ⟨?_, ?_, by rfl, by rfl, by rfl, by rfl, by rfl⟩
  · show stdClamp bpm 1 1000 = _
    exact hc
  · show calculateStepInterval (stdClamp bpm 1 1000) = _
    rw [key _ hpos, hc]

/-! ### C3: Mode0Sequencer::calculateLoopLength on an empty grid -/

/-- C3 (code evaluated at the failing input): on the all-zero Song — no
mode-0 step active — `calculateLoopLength` stores loop length 1
(`std::clamp(-1 + 1, 1, 16)`), not the 16 the spec and the unit test
`loop_length_calculation_no_active_steps` require. -/
theorem C3_loop_length_empty_grid : calculateLoopLength zeroSong = 1 := by decide

/-! ### C6: Engine::processStep pattern selection -/

/-- C6 counterexample: with `current_mode = 1` (≠ 0), `current_pattern = 3`
and `pattern_override[2] = 5`, `processStep` plays pattern 5 for mode 2 —
the override is applied even though the claim says a non-zero
`current_mode` must use `current_pattern` unconditionally. -/
theorem C6_counterexample :
    c6State.current_mode = 1 ∧
    c6State.current_pattern = 3 ∧
    processStepPatternToPlay c6State ⟨2, by norm_num⟩ = 5 ∧
    processStepPatternToPlay c6State ⟨2, by norm_num⟩ ≠ c6State.current_pattern := by
  refine ⟨rfl, rfl, rfl, by decide⟩

/-- C6 (amended): in `Engine::processStep` the pattern played for mode `m`
is `pattern_override[m]` whenever it is ≥ 0 and `current_pattern`
otherwise, regardless of `current_mode` (the selection never reads
`current_mode`). -/
theorem C6_pattern_selection_amended (st : EngineState) (m : Fin 15) :
    (0 ≤ st.mode_pattern_overrides m →
      processStepPatternToPlay st m = st.mode_pattern_overrides m) ∧
    (st.mode_pattern_overrides m < 0 →
      processStepPatternToPlay st m = st.current_pattern) ∧
    (∀ mode' : Int,
      processStepPatternToPlay ⟨mode', st.current_pattern, st.mode_pattern_overrides⟩ m
        = processStepPatternToPlay st m) := by
  unfold processStepPatternToPlay
  refine ⟨fun h => ?_, fun h => ?_, fun mode' => rfl⟩
  · rw [if_pos (by omega)]
  · rw [if_neg (by omega)]

/-- Witness for the amended C6 at the concrete state `c6State`, mode 2. -/
theorem C6_pattern_selection_amended_witness :
    (0 ≤ c6State.mode_pattern_overrides ⟨2, by norm_num⟩ →
      processStepPatternToPlay c6State ⟨2, by norm_num⟩
        = c6State.mode_pattern_overrides ⟨2, by norm_num⟩) ∧
    (c6State.mode_pattern_overrides ⟨2, by norm_num⟩ < 0 →
      processStepPatternToPlay c6State ⟨2, by norm_num⟩ = c6State.current_pattern) ∧
    (∀ mode' : Int,
      processStepPatternToPlay ⟨mode', c6State.current_pattern, c6State.mode_pattern_overrides⟩
          ⟨2, by norm_num⟩
        = processStepPatternToPlay c6State ⟨2, by norm_num⟩) :=
  C6_pattern_selection_amended c6State ⟨2, by norm_num⟩

/-! ### C9: event-store accessor bounds behaviour -/

/-- C9 counterexample: in the exceptions-enabled build (the `#ifndef
NO_EXCEPTIONS` branch compiled on desktop), `Track::getEvent(-1)` and
`Song::getMode(15)` throw `std::out_of_range` instead of clamping, so an
out-of-range access does not "return normally". -/
theorem C9_counterexample :
    trackGetEventExc (fun _ => (0 : ℕ)) (-1) = Except.error "Track step out of range" ∧
    songGetModeExc (fun _ => (0 : ℕ)) 15 = Except.error "Mode number out of range" :=
  ⟨rfl, rfl⟩

lemma clampIndex_cases (i : Int) (n : ℕ) (hn : 0 < n) :
    (i < 0 → clampIndex i n = 0) ∧
    (0 ≤ i → i < (n : Int) → clampIndex i n = i.toNat) ∧
    ((n : Int) ≤ i → clampIndex i n = n - 1) := by
  unfold clampIndex
  refine ⟨fun h => ?_, fun h0 h1 => ?_, fun h => ?_⟩ <;> omega

/-- C9 (amended): in `NO_EXCEPTIONS` (embedded) builds the four accessors
clamp an out-of-range index to the nearest valid index (0 below, N-1
above, identity in range) and return that element; in exception-enabled
builds an in-range index returns the element and an out-of-range index
throws `std::out_of_range` instead. -/
theorem C9_accessors_amended {α : Type} (ev : Fin 16 → α) (tk : Fin 8 → α)
    (pt : Fin 32 → α) (md : Fin 15 → α) (i : Int) :
    ((i < 0 → trackGetEvent ev i = ev ⟨0, by norm_num⟩) ∧
     (0 ≤ i → i < 16 → ∀ h : i.toNat < 16, trackGetEvent ev i = ev ⟨i.toNat, h⟩) ∧
     (16 ≤ i → trackGetEvent ev i = ev ⟨15, by norm_num⟩) ∧
     (0 ≤ i → i < 16 → trackGetEventExc ev i = Except.ok (trackGetEvent ev i)) ∧
     (i < 0 ∨ 16 ≤ i → trackGetEventExc ev i = Except.error "Track step out of range")) ∧
    ((i < 0 → patternGetTrack tk i = tk ⟨0, by norm_num⟩) ∧
     (0 ≤ i → i < 8 → ∀ h : i.toNat < 8, patternGetTrack tk i = tk ⟨i.toNat, h⟩) ∧
     (8 ≤ i → patternGetTrack tk i = tk ⟨7, by norm_num⟩) ∧
     (0 ≤ i → i < 8 → patternGetTrackExc tk i = Except.ok (patternGetTrack tk i)) ∧
     (i < 0 ∨ 8 ≤ i → patternGetTrackExc tk i = Except.error "Track number out of range")) ∧
    ((i < 0 → modeGetPattern pt i = pt ⟨0, by norm_num⟩) ∧
     (0 ≤ i → i < 32 → ∀ h : i.toNat < 32, modeGetPattern pt i = pt ⟨i.toNat, h⟩) ∧
     (32 ≤ i → modeGetPattern pt i = pt ⟨31, by norm_num⟩) ∧
     (0 ≤ i → i < 32 → modeGetPatternExc pt i = Except.ok (modeGetPattern pt i)) ∧
     (i < 0 ∨ 32 ≤ i → modeGetPatternExc pt i = Except.error "Pattern number out of range")) ∧
    ((i < 0 → songGetMode md i = md ⟨0, by norm_num⟩) ∧
     (0 ≤ i → i < 15 → ∀ h : i.toNat < 15, songGetMode md i = md ⟨i.toNat, h⟩) ∧
     (15 ≤ i → songGetMode md i = md ⟨14, by norm_num⟩) ∧
     (0 ≤ i → i < 15 → songGetModeExc md i = Except.ok (songGetMode md i)) ∧
     (i < 0 ∨ 15 ≤ i → songGetModeExc md i = Except.error "Mode number out of range")) := by
  have key : ∀ (n : ℕ), 0 < n → ∀ (a : Fin n → α) (r : ℕ) (hr : r < n),
      clampIndex i n = r → a ⟨clampIndex i n, clampIndex_lt i n (by omega)⟩ = a ⟨r, hr⟩ := by
    intro n hn a r hr h
    congr 1
    exact Fin.ext h
  refine ⟨⟨fun h => ?_, fun h0 h1 h => ?_, fun h => ?_, fun h0 h1 => ?_, fun h => ?_⟩,
    ⟨fun h => ?_, fun h0 h1 h => ?_, fun h => ?_, fun h0 h1 => ?_, fun h => ?_⟩,
    ⟨fun h => ?_, fun h0 h1 h => ?_, fun h => ?_, fun h0 h1 => ?_, fun h => ?_⟩,
    ⟨fun h => ?_, fun h0 h1 h => ?_, fun h => ?_, fun h0 h1 => ?_, fun h => ?_⟩⟩
  · exact key 16 (by norm_num) ev 0 (by norm_num) ((clampIndex_cases i 16 (by norm_num)).1 h)
  · exact key 16 (by norm_num) ev i.toNat h
      ((clampIndex_cases i 16 (by norm_num)).2.1 h0 (by exact_mod_cast h1))
  · exact key 16 (by norm_num) ev 15 (by norm_num)
      ((clampIndex_cases i 16 (by norm_num)).2.2 (by exact_mod_cast h))
  · unfold trackGetEventExc
    rw [if_neg (by omega)]
  · unfold trackGetEventExc
    rw [if_pos h]
  · exact key 8 (by norm_num) tk 0 (by norm_num) ((clampIndex_cases i 8 (by norm_num)).1 h)
  · exact key 8 (by norm_num) tk i.toNat h
      ((clampIndex_cases i 8 (by norm_num)).2.1 h0 (by exact_mod_cast h1))
  · exact key 8 (by norm_num) tk 7 (by norm_num)
      ((clampIndex_cases i 8 (by norm_num)).2.2 (by exact_mod_cast h))
  · unfold patternGetTrackExc
    rw [if_neg (by omega)]
  · unfold patternGetTrackExc
    rw [if_pos h]
  · exact key 32 (by norm_num) pt 0 (by norm_num) ((clampIndex_cases i 32 (by norm_num)).1 h)
  · exact key 32 (by norm_num) pt i.toNat h
      ((clampIndex_cases i 32 (by norm_num)).2.1 h0 (by exact_mod_cast h1))
  · exact key 32 (by norm_num) pt 31 (by norm_num)
      ((clampIndex_cases i 32 (by norm_num)).2.2 (by exact_mod_cast h))
  · unfold modeGetPatternExc
    rw [if_neg (by omega)]
  · unfold modeGetPatternExc
    rw [if_pos h]
  · exact key 15 (by norm_num) md 0 (by norm_num) ((clampIndex_cases i 15 (by norm_num)).1 h)
  · exact key 15 (by norm_num) md i.toNat h
      ((clampIndex_cases i 15 (by norm_num)).2.1 h0 (by exact_mod_cast h1))
  · exact key 15 (by norm_num) md 14 (by norm_num)
      ((clampIndex_cases i 15 (by norm_num)).2.2 (by exact_mod_cast h))
  · unfold songGetModeExc
    rw [if_neg (by omega)]
  · unfold songGetModeExc
    rw [if_pos h]

/-- Witness for the amended C9 at a concrete out-of-range index. -/
theorem C9_accessors_amended_witness :
    trackGetEvent (fun k => (k.val : ℕ)) (-2) = 0 ∧
    songGetMode (fun k => (k.val : ℕ)) 99 = 14 := by
  have h := C9_accessors_amended (fun k => (k.val : ℕ)) (fun k => (k.val : ℕ))
    (fun k => (k.val : ℕ)) (fun k => (k.val : ℕ))
  exact ⟨(h (-2)).1.1 (by norm_num), (h 99).2.2.2.2.2.1 (by norm_num)⟩

/-! ### C7: MidiClockManager emits pulses before start() -/

lemma c7q : (1 : ℚ) ≤ mcmInit.clock_interval_ms := by
  show (1 : ℚ) ≤ calculateClockInterval 120
  unfold calculateClockInterval
  norm_num

/-- C7 (code evaluated at the failing input): a freshly constructed
`MidiClockManager` (tempo 120, `clock_start_time_ = 0`,
`clock_pulse_count_ = 0`) with no `start()` call emits 5 clock pulses
(0xF8) when `update()` runs at hardware time 100 ms — `update` has no
started-guard, so `next_clock_time = 0` is already due.  The unit test
`no_clocks_before_start` and the spec require 0 pulses here. -/
theorem C7_pulses_emitted_before_start : mcmUpdatePulses mcmInit 100 c7q = 5 := by
  show clockPulses 100 0 (calculateClockInterval 120) c7q 0 = 5
  have hq : calculateClockInterval 120 = 125 / 6 := by
    unfold calculateClockInterval
    norm_num
  have f : ∀ (k : ℚ) (v : ℤ), (v : ℚ) ≤ k * calculateClockInterval 120 →
      k * calculateClockInterval 120 < v + 1 → ⌊k * calculateClockInterval 120⌋ = v :=
    fun k v h1 h2 => Int.floor_eq_iff.mpr ⟨h1, h2⟩
  have f0 := f 0 0 (by rw [hq]; norm_num) (by rw [hq]; norm_num)
  have f1 := f 1 20 (by rw [hq]; norm_num) (by rw [hq]; norm_num)
  have f2 := f 2 41 (by rw [hq]; norm_num) (by rw [hq]; norm_num)
  have f3 := f 3 62 (by rw [hq]; norm_num) (by rw [hq]; norm_num)
  have f4 := f 4 83 (by rw [hq]; norm_num) (by rw [hq]; norm_num)
  have f5 := f 5 104 (by rw [hq]; norm_num) (by rw [hq]; norm_num)
  have f1b : ⌊calculateClockInterval 120⌋ = 20 := by
    rw [hq]
    exact Int.floor_eq_iff.mpr ⟨by norm_num, by norm_num⟩
  rw [clockPulses, clockPulses, clockPulses, clockPulses, clockPulses, clockPulses]
  norm_num [f0, f1, f1b, f2, f3, f4, f5]

/-! ### C10: loadBinary header validation -/

/-- C10: a stream whose first word is not the magic `0x47525642` or whose
second word is not version 1 makes `loadBinary` return `false` with the
Song untouched — both checks run before any grid write. -/
theorem C10_loadBinary_rejects_bad_header (stream : List ℕ) (s : Song)
    (h : stream.getD 0 0 ≠ 0x47525642 ∨ stream.getD 1 0 ≠ 1) :
    loadBinary stream s = (false, s) := by
  unfold loadBinary
  rcases h with h | h
  · rw [if_pos h]
  · by_cases h0 : stream.getD 0 0 ≠ 0x47525642
    · rw [if_pos h0]
    · rw [if_neg h0, if_pos h]

/-- Witness for C10 on a concrete stream with a wrong magic word. -/
theorem C10_loadBinary_rejects_bad_header_witness :
    ([(18 : ℕ), 1].getD 0 0 ≠ 0x47525642 ∨ [(18 : ℕ), 1].getD 1 0 ≠ 1) ∧
    loadBinary [18, 1] zeroSong = (false, zeroSong) :=
  ⟨Or.inl (by decide),
   C10_loadBinary_rejects_bad_header [18, 1] zeroSong (Or.inl (by decide))⟩

/-! ### C5: binary save / load round trip -/

lemma flatMap_length_const {α β : Type} (l : List α) (f : α → List β) (L : ℕ)
    (h : ∀ a ∈ l, (f a).length = L) : (l.flatMap f).length = l.length * L := by
  induction l with
  | nil => simp
  | cons x xs ih =>
    rw [List.flatMap_cons, List.length_append, h x (by simp),
      ih (fun a ha => h a (by simp [ha]))]
    simp [Nat.succ_mul]
    omega

lemma flatMap_getD_const {α β : Type} (l : List α) (f : α → List β) (L : ℕ)
    (h : ∀ a ∈ l, (f a).length = L) (k r : ℕ) (hk : k < l.length) (hr : r < L) (d : β) :
    (l.flatMap f).getD (k * L + r) d = (f (l[k])).getD r d := by
  induction l generalizing k with
  | nil => simp at hk
  | cons x xs ih =>
    cases k with
    | zero =>
      rw [List.flatMap_cons]
      have hlen : r < (f x).length := by rw [h x (by simp)]; exact hr
      simp only [Nat.zero_mul, Nat.zero_add]
      rw [List.getD_append (f x) (xs.flatMap f) d r hlen]
      simp
    | succ k =>
      rw [List.flatMap_cons]
      have hx : (f x).length = L := h x (by simp)
      have hidx : (k + 1) * L + r = (f x).length + (k * L + r) := by rw [hx]; ring
      rw [hidx, List.getD_append_right (f x) (xs.flatMap f) d _ (by omega)]
      have h2 : (f x).length + (k * L + r) - (f x).length = k * L + r := by omega
      rw [h2]
      have hk' : k < xs.length := by simpa using hk
      rw [ih (fun a ha => h a (by simp [ha])) k hk']
      congr 1

lemma len16 (g : Fin 16 → ℕ) : ((List.finRange 16).map g).length = 16 := by simp

lemma len128 (g : Fin 8 → Fin 16 → ℕ) :
    ((List.finRange 8).flatMap fun t => (List.finRange 16).map (g t)).length = 128 := by
  rw [flatMap_length_const _ _ 16 (fun a _ => len16 (g a))]
  simp

lemma len4096 (g : Fin 32 → Fin 8 → Fin 16 → ℕ) :
    ((List.finRange 32).flatMap fun p =>
      (List.finRange 8).flatMap fun t => (List.finRange 16).map (g p t)).length = 4096 := by
  rw [flatMap_length_const _ _ 128 (fun a _ => len128 (g a))]
  simp

lemma getElem_finRange_eq (n k : ℕ) (hk : k < n)
    (h2 : k < (List.finRange n).length) :
    (List.finRange n)[k] = ⟨k, hk⟩ := by
  simp [List.getElem_finRange, Fin.cast]

/-- The word at flat position `flatIdx m p t st` of the serialized grid is
exactly the (m, p, t, st) event word: the stream is in loop order
mode → pattern → track → step. -/
lemma gridWords_getD (s : Song) (m : Fin 15) (p : Fin 32) (t : Fin 8) (st : Fin 16) :
    (gridWords s).getD (flatIdx m p t st) 0 = s m p t st := by
  have hidx : flatIdx m p t st = m.val * 4096 + (p.val * 128 + (t.val * 16 + st.val)) := by
    unfold flatIdx
    ring
  unfold gridWords
  rw [hidx]
  rw [flatMap_getD_const _ _ 4096 (fun a _ => len4096 (fun p t st => s a p t st))
    m.val _ (by simp [m.isLt]) (by omega) 0]
  rw [getElem_finRange_eq 15 m.val m.isLt (by simp [m.isLt])]
  rw [flatMap_getD_const _ _ 128 (fun a _ => len128 (fun t st => s m a t st))
    p.val _ (by simp [p.isLt]) (by omega) 0]
  rw [getElem_finRange_eq 32 p.val p.isLt (by simp [p.isLt])]
  rw [flatMap_getD_const _ _ 16 (fun a _ => len16 (fun st => s m p a st))
    t.val _ (by simp [t.isLt]) (by omega) 0]
  rw [getElem_finRange_eq 8 t.val t.isLt (by simp [t.isLt])]
  rw [List.getD_eq_getElem _ _ (by simp [st.isLt])]
  rw [List.getElem_map]
  rw [getElem_finRange_eq 16 st.val st.isLt (by simp [st.isLt])]

/-- C5: `saveBinary` followed by `loadBinary` reproduces the packed grid
identically (every 32-bit Event word unchanged), and the serialized stream
is the 61440 packed words in loop order mode → pattern → track → step
after the magic+version header (two 32-bit words, i.e. 8 bytes). -/
theorem C5_saveBinary_loadBinary_roundtrip (s s₀ : Song)
    (h : ∀ m p t st, s m p t st < 2 ^ 32) :
    loadBinary (saveBinary s) s₀ = (true, s) ∧
    (saveBinary s).length = 2 + 61440 ∧
    (∀ m p t st, (saveBinary s).getD (2 + flatIdx m p t st) 0 = s m p t st) := by
  have hsave : ∀ m p t st, (saveBinary s).getD (2 + flatIdx m p t st) 0 = s m p t st := by
    intro m p t st
    show (0x47525642 :: 1 :: gridWords s).getD (2 + flatIdx m p t st) 0 = _
    rw [show 2 + flatIdx m p t st = (flatIdx m p t st + 1) + 1 by omega]
    rw [List.getD_cons_succ, List.getD_cons_succ]
    exact gridWords_getD s m p t st
  refine ⟨?_, ?_, hsave⟩
  · unfold loadBinary
    rw [if_neg (by simp [saveBinary]), if_neg (by simp [saveBinary])]
    refine Prod.ext rfl ?_
    funext m p t st
    show (saveBinary s).getD (2 + flatIdx m p t st) 0 % 2 ^ 32 = s m p t st
    rw [hsave m p t st, Nat.mod_eq_of_lt (h m p t st)]
  · show (0x47525642 :: 1 :: gridWords s).length = 2 + 61440
    rw [List.length_cons, List.length_cons]
    unfold gridWords
    rw [flatMap_length_const _ _ 4096 (fun a _ => len4096 (fun p t st => s a p t st))]
    simp

/-- Witness for C5 at the concrete `demoSong`. -/
theorem C5_saveBinary_loadBinary_roundtrip_witness :
    loadBinary (saveBinary demoSong) zeroSong = (true, demoSong) ∧
    (saveBinary demoSong).length = 2 + 61440 ∧
    (∀ m p t st, (saveBinary demoSong).getD (2 + flatIdx m p t st) 0 = demoSong m p t st) :=
  C5_saveBinary_loadBinary_roundtrip demoSong zeroSong
    (by
      intro m p t st
      unfold demoSong
      split <;> norm_num)

/-! ### C8: scheduler drop-when-full and recovery -/

lemma findFreeSlotFrom_eq_neg_one (buf : List AbsoluteMidiEvent) (i : ℕ)
    (h : ∀ s ∈ buf, s.active = true) : findFreeSlotFrom buf i = -1 := by
  induction buf generalizing i with
  | nil => rfl
  | cons x xs ih =>
    unfold findFreeSlotFrom
    rw [if_neg (by simp [h x (by simp)])]
    exact ih _ (fun s hs => h s (by simp [hs]))

lemma findFreeSlotFrom_ge (buf : List AbsoluteMidiEvent) (i : ℕ)
    (h : ∃ s ∈ buf, s.active = false) : (i : Int) ≤ findFreeSlotFrom buf i := by
  induction buf generalizing i with
  | nil => simp at h
  | cons x xs ih =>
    unfold findFreeSlotFrom
    by_cases hx : x.active
    · rw [if_neg (by simp [hx])]
      have hxs : ∃ s ∈ xs, s.active = false := by
        rcases h with ⟨s, hs, hsa⟩
        rcases List.mem_cons.mp hs with rfl | hmem
        · rw [hx] at hsa
          cases hsa
        · exact ⟨s, hmem, hsa⟩
      calc (i : Int) ≤ ((i + 1 : ℕ) : Int) := by push_cast; omega
        _ ≤ _ := ih (i + 1) hxs
    · rw [if_pos (by simp [hx])]

/-- C8: when every slot of the scheduler buffer is active, `schedule` drops
the offered event and returns the state unchanged (every slot and the
event count); as soon as some slot is free again (e.g. after `update`
drains due events), a `schedule` succeeds and stores the event, bumping
`event_count` by one. -/
theorem C8_schedule_full_drops_then_recovers (st : MidiScheduler) (now : ℕ)
    (e : ScheduledMidiEvent) :
    ((∀ s ∈ st.event_buffer, s.active = true) → schedule st now e = st) ∧
    ((∃ s ∈ st.event_buffer, s.active = false) →
      (schedule st now e).event_count = st.event_count + 1) := by
  constructor
  · intro hall
    unfold schedule findFreeSlot
    rw [findFreeSlotFrom_eq_neg_one st.event_buffer 0 hall]
    norm_num
  · intro hex
    have hge : (0 : Int) ≤ findFreeSlot st.event_buffer := findFreeSlotFrom_ge _ 0 hex
    unfold schedule
    rw [if_neg (by omega)]
    dsimp only
    split <;> rfl

/-- Witness for C8: the 65th event offered to the full scheduler is dropped
with the state unchanged, and after `update` at time 5 drains the queue a
new `schedule` stores its event. -/
theorem C8_schedule_full_drops_then_recovers_witness :
    schedule fullSched 0 (noteOn 60 100 0 0) = fullSched ∧
    (schedule (update fullSched 5).1 5 (noteOn 60 100 0 0)).event_count
      = (update fullSched 5).1.event_count + 1 :=
  ⟨(C8_schedule_full_drops_then_recovers fullSched 0 (noteOn 60 100 0 0)).1 (by decide),
   (C8_schedule_full_drops_then_recovers (update fullSched 5).1 5 (noteOn 60 100 0 0)).2
     (by decide)⟩

/-! ### C4: scheduler emission order -/

set_option maxRecDepth 40000 in
/-- C4 counterexample: `c4e1`, `c4e2`, `c4e3` are scheduled at time 0
(absolute times 10, 20, 30), `update` at time 20 drains the first two
leaving a two-slot hole, then `c4e4` is scheduled at time 20 (absolute
time 40) and lands in slot 0, on the wrong side of the hole — the
insertion sort cannot move `c4e3` across the inactive slot 1.  The next
`update` (time 40) then emits `c4e4` **before** `c4e3`, although
`schedule(c4e3)` was called first and `c4e3`'s absolute due time 30 is ≤
`c4e4`'s 40.  The first conjunct records the due times, the second the
inverted emission order. -/
theorem C4_counterexample :
    (0 + c4e3.delta_ms) % 2 ^ 32 ≤ (20 + c4e4.delta_ms) % 2 ^ 32 ∧
    (update (schedule (update (schedule (schedule (schedule mkScheduler 0 c4e1) 0 c4e2) 0
        c4e3) 20).1 20 c4e4) 40).2 = [c4e4.data, c4e3.data] := by
  constructor
  · decide
  · decide

/-! #### Stable-insert helper lemmas -/

lemma insLE_length (v : AbsoluteMidiEvent) (A : List AbsoluteMidiEvent) :
    (insLE v A).length = A.length + 1 := by
  induction A with
  | nil => rfl
  | cons x xs ih =>
    unfold insLE
    split_ifs <;> simp [ih]

lemma insLE_mem (v : AbsoluteMidiEvent) (A : List AbsoluteMidiEvent) (x : AbsoluteMidiEvent)
    (h : x ∈ insLE v A) : x = v ∨ x ∈ A := by
  induction A with
  | nil =>
    unfold insLE at h
    simp at h
    exact Or.inl h
  | cons y ys ih =>
    unfold insLE at h
    split_ifs at h with hy
    · rcases List.mem_cons.mp h with rfl | h2
      · exact Or.inl rfl
      · exact Or.inr h2
    · rcases List.mem_cons.mp h with rfl | h2
      · exact Or.inr (by simp)
      · rcases ih h2 with h3 | h3
        · exact Or.inl h3
        · exact Or.inr (by simp [h3])

lemma insLE_active (v : AbsoluteMidiEvent) (A : List AbsoluteMidiEvent)
    (hv : v.active = true) (hA : ∀ s ∈ A, s.active = true) :
    ∀ s ∈ insLE v A, s.active = true := by
  intro s hs
  rcases insLE_mem v A s hs with rfl | h
  · exact hv
  · exact hA s h

lemma insLE_pairwise (v : AbsoluteMidiEvent) (A : List AbsoluteMidiEvent)
    (h : A.Pairwise slotLE) : (insLE v A).Pairwise slotLE := by
  induction A with
  | nil => simp [insLE]
  | cons x xs ih =>
    rw [List.pairwise_cons] at h
    unfold insLE
    split_ifs with hx
    · rw [List.pairwise_cons]
      constructor
      · intro y hy
        rcases List.mem_cons.mp hy with rfl | h2
        · unfold slotLE
          omega
        · have h3 : slotLE x y := h.1 y h2
          unfold slotLE at h3 ⊢
          omega
      · rw [List.pairwise_cons]
        exact h
    · rw [List.pairwise_cons]
      constructor
      · intro y hy
        rcases insLE_mem v xs y hy with rfl | h2
        · unfold slotLE
          omega
        · exact h.1 y h2
      · exact ih h.2

lemma insLE_append_gt (v x : AbsoluteMidiEvent) (A : List AbsoluteMidiEvent)
    (hx : x.absolute_time_ms > v.absolute_time_ms) :
    insLE v (A ++ [x]) = insLE v A ++ [x] := by
  induction A with
  | nil =>
    rw [List.nil_append]
    unfold insLE
    rw [if_pos hx]
    rfl
  | cons y ys ih =>
    show insLE v (y :: (ys ++ [x])) = _
    unfold insLE
    split_ifs with hy
    · rfl
    · rw [ih, List.cons_append]

lemma insLE_all_le (v : AbsoluteMidiEvent) (A : List AbsoluteMidiEvent)
    (h : ∀ z ∈ A, ¬ z.absolute_time_ms > v.absolute_time_ms) :
    insLE v A = A ++ [v] := by
  induction A with
  | nil => rfl
  | cons x xs ih =>
    unfold insLE
    rw [if_neg (h x (by simp))]
    rw [ih (fun z hz => h z (by simp [hz]))]
    rfl

/-! #### List access helper lemmas -/

lemma set_append_offset {α : Type} (l₁ l₂ : List α) (m : ℕ) (v : α) :
    (l₁ ++ l₂).set (l₁.length + m) v = l₁ ++ l₂.set m v := by
  rw [List.set_append, if_neg (by omega)]
  have h : l₁.length + m - l₁.length = m := by omega
  rw [h]

lemma getD_append_offset {α : Type} (l₁ l₂ : List α) (d : α) (m : ℕ) :
    (l₁ ++ l₂).getD (l₁.length + m) d = l₂.getD m d := by
  rw [List.getD_append_right _ _ _ _ (by omega)]
  have h : l₁.length + m - l₁.length = m := by omega
  rw [h]

lemma set_getD_self {α : Type} (l : List α) (i : ℕ) (d : α) (h : i < l.length) :
    l.set i (l.getD i d) = l := by
  induction l generalizing i with
  | nil => simp at h
  | cons x xs ih =>
    cases i with
    | zero => simp
    | succ i =>
      rw [List.getD_cons_succ, List.set_cons_succ]
      rw [ih i (by simpa using h)]

lemma getD_replicate_emptySlot (k j : ℕ) :
    (List.replicate k emptySlot).getD j emptySlot = emptySlot := by
  induction k generalizing j with
  | zero => simp
  | succ k ih =>
    cases j with
    | zero => rfl
    | succ j =>
      rw [List.replicate_succ, List.getD_cons_succ]
      exact ih j

/-! #### The imperative insertion sort realizes the stable insert -/

lemma innerShift_insert (temp : AbsoluteMidiEvent) :
    ∀ A : List AbsoluteMidiEvent, A.Pairwise slotLE → (∀ s ∈ A, s.active = true) →
      ∀ (junk : List AbsoluteMidiEvent) (y : AbsoluteMidiEvent),
        innerShift temp A.length (A ++ y :: junk) = insLE temp A ++ junk := by
  intro A
  induction A using List.reverseRecOn with
  | nil =>
    intro _ _ junk y
    show innerShift temp 0 (y :: junk) = [temp] ++ junk
    unfold innerShift
    simp
  | append_singleton A' x ih =>
    intro hp ha junk y
    rw [show (A' ++ [x]).length = A'.length + 1 by simp]
    rw [show (A' ++ [x]) ++ y :: junk = A' ++ x :: y :: junk by simp]
    have hsj : (A' ++ x :: y :: junk).getD A'.length emptySlot = x := by
      rw [show A'.length = A'.length + 0 by omega, getD_append_offset]
      rfl
    unfold innerShift
    rw [hsj]
    have hxa : x.active = true := ha x (by simp)
    have hp' : A'.Pairwise slotLE := (List.pairwise_append.mp hp).1
    have ha' : ∀ s ∈ A', s.active = true := fun s hs => ha s (by simp [hs])
    by_cases hxt : x.absolute_time_ms > temp.absolute_time_ms
    · rw [if_pos ⟨hxa, hxt⟩]
      rw [set_append_offset A' (x :: y :: junk) 1 x]
      rw [show (x :: y :: junk).set 1 x = x :: x :: junk from rfl]
      rw [ih hp' ha' (x :: junk) x]
      rw [insLE_append_gt temp x A' hxt]
      simp
    · rw [if_neg (by
        intro hcon
        exact hxt hcon.2)]
      rw [set_append_offset A' (x :: y :: junk) 1 temp]
      rw [show (x :: y :: junk).set 1 temp = x :: temp :: junk from rfl]
      have hall : ∀ z ∈ A' ++ [x], ¬ z.absolute_time_ms > temp.absolute_time_ms := by
        intro z hz
        rcases List.mem_append.mp hz with h1 | h1
        · have hzx : slotLE z x := by
            rw [List.pairwise_append] at hp
            exact hp.2.2 z h1 x (by simp)
          unfold slotLE at hzx
          omega
        · rcases List.mem_singleton.mp h1 with rfl
          exact hxt
      rw [insLE_all_le temp (A' ++ [x]) hall]
      simp

lemma sortPass_inactive (buf : List AbsoluteMidiEvent) (i : ℕ)
    (h : (buf.getD i emptySlot).active = false) : sortPass buf i = buf := by
  unfold sortPass
  rw [if_neg (by
    intro hc
    rw [h] at hc
    cases hc)]

lemma sortPass_sorted_prefix_id (A rest : List AbsoluteMidiEvent) (i : ℕ)
    (h1 : 1 ≤ i) (hi : i < A.length)
    (hp : A.Pairwise slotLE) (ha : ∀ s ∈ A, s.active = true) :
    sortPass (A ++ rest) i = A ++ rest := by
  obtain ⟨j, rfl⟩ : ∃ j, i = j + 1 := ⟨i - 1, by omega⟩
  have hget : ∀ m, m < A.length → (A ++ rest).getD m emptySlot = A.getD m emptySlot :=
    fun m hm => List.getD_append _ _ _ _ (by omega)
  have hAj1 : (A ++ rest).getD (j + 1) emptySlot = A.getD (j + 1) emptySlot := hget _ hi
  have hAj : (A ++ rest).getD j emptySlot = A.getD j emptySlot := hget _ (by omega)
  have hle : slotLE (A.getD j emptySlot) (A.getD (j + 1) emptySlot) := by
    rw [List.getD_eq_getElem _ _ (show j < A.length by omega),
      List.getD_eq_getElem _ _ hi]
    exact List.pairwise_iff_getElem.mp hp j (j + 1) (by omega) hi (by omega)
  unfold sortPass
  rw [hAj1, if_pos (by
    apply ha
    rw [List.getD_eq_getElem _ _ hi]
    exact List.getElem_mem _)]
  unfold innerShift
  rw [hAj]
  rw [if_neg (by
    intro hcon
    unfold slotLE at hle
    omega)]
  rw [← hAj1]
  exact set_getD_self _ _ _ (by simp; omega)

lemma foldl_sortPass_id (buf : List AbsoluteMidiEvent) :
    ∀ (len lo : ℕ), (∀ i, lo ≤ i → i < lo + len → sortPass buf i = buf) →
      (List.range' lo len).foldl sortPass buf = buf := by
  intro len
  induction len with
  | zero => intro lo _; rfl
  | succ len ih =>
    intro lo h
    rw [List.range'_succ, List.foldl_cons, h lo (by omega) (by omega)]
    exact ih (lo + 1) (fun i h1 h2 => h i (by omega) (by omega))

/-- `sortEvents` on a sorted active prefix `A` with one fresh active slot
`v` right after it performs exactly the stable insertion of `v` into
`A`. -/
lemma sortEvents_insert (A : List AbsoluteMidiEvent) (v : AbsoluteMidiEvent) (k : ℕ)
    (hp : A.Pairwise slotLE) (ha : ∀ s ∈ A, s.active = true) (hv : v.active = true)
    (hA1 : 1 ≤ A.length) (hA63 : A.length ≤ 63) :
    sortEvents (A ++ v :: List.replicate k emptySlot)
      = insLE v A ++ List.replicate k emptySlot := by
  unfold sortEvents
  have hsplit : List.range' 1 63 = List.range' 1 (A.length - 1)
      ++ List.range' A.length (64 - A.length) := by
    have h1 : 1 + 1 * (A.length - 1) = A.length := by omega
    have h2 : (64 - A.length) + (A.length - 1) = 63 := by omega
    rw [← h2, ← List.range'_append 1 (A.length - 1) (64 - A.length) 1, h1]
  rw [hsplit, List.foldl_append]
  rw [foldl_sortPass_id _ (A.length - 1) 1 (fun i hi1 hi2 =>
    sortPass_sorted_prefix_id A (v :: List.replicate k emptySlot) i hi1 (by omega) hp ha)]
  have h64 : 64 - A.length = (64 - A.length - 1) + 1 := by omega
  rw [h64, List.range'_succ, List.foldl_cons]
  have hgv : (A ++ v :: List.replicate k emptySlot).getD A.length emptySlot = v := by
    rw [show A.length = A.length + 0 by omega, getD_append_offset]
    rfl
  have hpass : sortPass (A ++ v :: List.replicate k emptySlot) A.length
      = insLE v A ++ List.replicate k emptySlot := by
    unfold sortPass
    rw [hgv, if_pos hv]
    exact innerShift_insert v A hp ha (List.replicate k emptySlot) v
  rw [hpass]
  apply foldl_sortPass_id
  intro i hi1 hi2
  apply sortPass_inactive
  have hlen : (insLE v A).length = A.length + 1 := insLE_length v A
  rw [show i = (insLE v A).length + (i - (insLE v A).length) by omega, getD_append_offset]
  rw [getD_replicate_emptySlot]
  rfl

/-! #### The schedule phase builds the stable sort -/

lemma findFreeSlotFrom_prefix (A : List AbsoluteMidiEvent) (i : ℕ)
    (rest : List AbsoluteMidiEvent) (hA : ∀ s ∈ A, s.active = true) :
    findFreeSlotFrom (A ++ emptySlot :: rest) i = ((i + A.length : ℕ) : Int) := by
  induction A generalizing i with
  | nil =>
    rw [List.nil_append]
    unfold findFreeSlotFrom
    rw [if_pos (by
      intro hc
      cases hc)]
    simp
  | cons x xs ih =>
    show findFreeSlotFrom (x :: (xs ++ emptySlot :: rest)) i = _
    unfold findFreeSlotFrom
    rw [if_neg (by simp [hA x (by simp)])]
    rw [ih (i + 1) (fun s hs => hA s (by simp [hs]))]
    congr 1
    simp
    omega

lemma SchedShape_schedule (st : MidiScheduler) (A : List AbsoluteMidiEvent) (now : ℕ)
    (e : ScheduledMidiEvent) (h : SchedShape st A) (hlt : A.length < 64) :
    SchedShape (schedule st now e) (insLE (mkAbs now e) A) := by
  obtain ⟨hbuf, hcount, hle, hact, hpair, hext⟩ := h
  have hbuf' : st.event_buffer
      = A ++ emptySlot :: List.replicate (64 - A.length - 1) emptySlot := by
    have hb2 : st.event_buffer = A ++ List.replicate ((64 - A.length - 1) + 1) emptySlot := by
      rw [hbuf]
      congr 2
      omega
    rw [hb2, List.replicate_succ]
  have hfind : findFreeSlot st.event_buffer = ((A.length : ℕ) : Int) := by
    unfold findFreeSlot
    rw [hbuf', findFreeSlotFrom_prefix A 0 _ hact]
    simp
  have hset : st.event_buffer.set ((A.length : Int)).toNat (mkAbs now e)
      = A ++ mkAbs now e :: List.replicate (64 - A.length - 1) emptySlot := by
    rw [hbuf', Int.toNat_natCast]
    rw [show A.length = A.length + 0 by omega, set_append_offset]
    rfl
  have hactive : (mkAbs now e).active = true := rfl
  simp only [schedule]
  rw [hfind, if_neg (by omega), hset, hcount]
  by_cases hA0 : A.length = 0
  · rw [if_neg (by omega)]
    obtain rfl : A = [] := List.length_eq_zero.mp hA0
    refine ⟨?_, ?_, ?_, ?_, ?_, ?_⟩
    · show mkAbs now e :: List.replicate (64 - 0 - 1) emptySlot
        = insLE (mkAbs now e) [] ++ List.replicate (64 - (insLE (mkAbs now e) []).length) emptySlot
      simp [insLE]
    · simp [insLE]
    · simp [insLE]
    · intro s hs
      rcases insLE_mem _ _ _ hs with rfl | h2
      · exact hactive
      · simp at h2
    · exact insLE_pairwise _ _ (by simp)
    · exact hext
  · rw [if_pos (by omega)]
    rw [sortEvents_insert A (mkAbs now e) (64 - A.length - 1) hpair hact hactive
      (by omega) (by omega)]
    refine ⟨?_, ?_, ?_, ?_, ?_, ?_⟩
    · show insLE (mkAbs now e) A ++ _ = insLE (mkAbs now e) A ++ _
      rw [insLE_length]
      congr 2
    · show A.length + 1 = _
      rw [insLE_length]
    · rw [insLE_length]
      omega
    · exact insLE_active _ _ hactive hact
    · exact insLE_pairwise _ _ hpair
    · exact hext

lemma SchedShape_runSchedules :
    ∀ (l : List (ℕ × ScheduledMidiEvent)) (st : MidiScheduler) (A : List AbsoluteMidiEvent),
      SchedShape st A → A.length + l.length ≤ 64 →
      SchedShape (runSchedules st l) (l.foldl (fun acc p => insLE (mkAbs p.1 p.2) acc) A) := by
  intro l
  induction l with
  | nil =>
    intro st A h _
    exact h
  | cons p ps ih =>
    intro st A h hlen
    have hstep : SchedShape (schedule st p.1 p.2) (insLE (mkAbs p.1 p.2) A) :=
      SchedShape_schedule st A p.1 p.2 h (by simp at hlen; omega)
    have hlen' : (insLE (mkAbs p.1 p.2) A).length + ps.length ≤ 64 := by
      rw [insLE_length]
      simp at hlen
      omega
    exact ih (schedule st p.1 p.2) (insLE (mkAbs p.1 p.2) A) hstep hlen'

/-! #### The drain phase emits the active prefix in order -/

lemma updGo_zero (now : ℕ) (ext : Bool) (i : ℕ) (buf : List AbsoluteMidiEvent)
    (count : ℕ) (acc : List (List ℕ)) :
    updGo now ext 0 i buf count acc = (buf, count, acc) := rfl

lemma updGo_succ (now : ℕ) (ext : Bool) (rem i : ℕ) (buf : List AbsoluteMidiEvent)
    (count : ℕ) (acc : List (List ℕ)) :
    updGo now ext (rem + 1) i buf count acc =
      if 0 < count then
        if (buf.getD i emptySlot).active then
          if (buf.getD i emptySlot).absolute_time_ms ≤ now then
            updGo now ext rem (i + 1)
              (buf.set i { buf.getD i emptySlot with active := false }) (count - 1)
              (acc ++ if ext then [(buf.getD i emptySlot).data] else [])
          else (buf, count, acc)
        else updGo now ext rem (i + 1) buf count acc
      else (buf, count, acc) := rfl

lemma updGo_count_zero (now : ℕ) (ext : Bool) :
    ∀ (rem i : ℕ) (buf : List AbsoluteMidiEvent) (acc : List (List ℕ)),
      updGo now ext rem i buf 0 acc = (buf, 0, acc) := by
  intro rem
  cases rem with
  | zero =>
    intro i buf acc
    rfl
  | succ rem =>
    intro i buf acc
    rw [updGo_succ]
    rw [if_neg (by omega)]

lemma updGo_skip (now : ℕ) (ext : Bool) :
    ∀ (H F rest : List AbsoluteMidiEvent) (count : ℕ) (acc : List (List ℕ)),
      (∀ s ∈ H, s.active = false) →
      updGo now ext (H.length + rest.length) F.length (F ++ (H ++ rest)) count acc
        = updGo now ext rest.length (F.length + H.length) (F ++ (H ++ rest)) count acc := by
  intro H
  induction H with
  | nil =>
    intro F rest count acc _
    simp
  | cons s H' ih =>
    intro F rest count acc hH
    by_cases hc : 0 < count
    · have hget : (F ++ (s :: H' ++ rest)).getD F.length emptySlot = s := by
        rw [show F.length = F.length + 0 by omega, getD_append_offset]
        rfl
      rw [show (s :: H').length + rest.length = (H'.length + rest.length) + 1 from by
        simp only [List.length_cons]
        omega]
      rw [updGo_succ]
      rw [if_pos hc, hget, if_neg (by simp [hH s (by simp)])]
      have hstep := ih (F ++ [s]) rest count acc (fun z hz => hH z (by simp [hz]))
      rw [show (F ++ [s]).length = F.length + 1 by simp] at hstep
      rw [show (F ++ [s]) ++ (H' ++ rest) = F ++ (s :: H' ++ rest) by simp] at hstep
      rw [hstep]
      rw [show F.length + (s :: H').length = F.length + 1 + H'.length from by
        simp only [List.length_cons]
        omega]
    · rw [show count = 0 by omega, updGo_count_zero, updGo_count_zero]

lemma updGo_emit (now : ℕ) :
    ∀ (R F junk : List AbsoluteMidiEvent) (acc : List (List ℕ)),
      (∀ s ∈ R, s.active = true) →
      updGo now true (R.length + junk.length) F.length (F ++ (R ++ junk)) R.length acc
        = (F ++ ((R.takeWhile (dueBy now)).map deactivate ++ (R.dropWhile (dueBy now) ++ junk)),
           (R.dropWhile (dueBy now)).length,
           acc ++ (R.takeWhile (dueBy now)).map (fun s => s.data)) := by
  intro R
  induction R with
  | nil =>
    intro F junk acc _
    rw [show ([] : List AbsoluteMidiEvent).length + junk.length = junk.length by simp]
    rw [show ([] : List AbsoluteMidiEvent).length = 0 by rfl]
    rw [updGo_count_zero]
    simp
  | cons s R' ih =>
    intro F junk acc hR
    have hget : (F ++ (s :: R' ++ junk)).getD F.length emptySlot = s := by
      rw [show F.length = F.length + 0 by omega, getD_append_offset]
      rfl
    rw [show (s :: R').length + junk.length = (R'.length + junk.length) + 1 from by
      simp only [List.length_cons]
      omega]
    rw [show (s :: R').length = R'.length + 1 from by simp]
    rw [updGo_succ]
    rw [if_pos (by omega), hget, if_pos (hR s (by simp))]
    by_cases hdue : s.absolute_time_ms ≤ now
    · rw [if_pos hdue]
      have hset : (F ++ (s :: R' ++ junk)).set F.length
            { s with active := false }
          = (F ++ [deactivate s]) ++ (R' ++ junk) := by
        rw [show F.length = F.length + 0 by omega, set_append_offset]
        simp [deactivate]
      rw [hset]
      have hstep := ih (F ++ [deactivate s]) junk (acc ++ [s.data])
        (fun z hz => hR z (by simp [hz]))
      rw [show (F ++ [deactivate s]).length = F.length + 1 by simp] at hstep
      rw [show R'.length + 1 - 1 = R'.length by omega]
      rw [show (acc ++ if true then [s.data] else []) = acc ++ [s.data] by simp]
      rw [hstep]
      have htw : (s :: R').takeWhile (dueBy now) = s :: R'.takeWhile (dueBy now) :=
        List.takeWhile_cons_of_pos (by simp [dueBy, hdue])
      have hdw : (s :: R').dropWhile (dueBy now) = R'.dropWhile (dueBy now) :=
        List.dropWhile_cons_of_pos (by simp [dueBy, hdue])
      rw [htw, hdw]
      simp
    · rw [if_neg hdue]
      have htw : (s :: R').takeWhile (dueBy now) = [] :=
        List.takeWhile_cons_of_neg (by simp [dueBy, hdue])
      have hdw : (s :: R').dropWhile (dueBy now) = s :: R' :=
        List.dropWhile_cons_of_neg (by simp [dueBy, hdue])
      rw [htw, hdw]
      simp

lemma DrainShape_update (st : MidiScheduler) (H R : List AbsoluteMidiEvent) (now : ℕ)
    (h : DrainShape st H R) :
    (update st now).2 = (R.takeWhile (dueBy now)).map (fun s => s.data) ∧
    DrainShape (update st now).1 (H ++ (R.takeWhile (dueBy now)).map deactivate)
      (R.dropWhile (dueBy now)) := by
  obtain ⟨hbuf, hcount, hlen, hH, hR, hext⟩ := h
  set J := List.replicate (64 - H.length - R.length) emptySlot with hJ
  have hJlen : J.length = 64 - H.length - R.length := by
    rw [hJ]
    simp
  have htwl : (R.takeWhile (dueBy now)).length + (R.dropWhile (dueBy now)).length
      = R.length := by
    have h2 := congrArg List.length (List.takeWhile_append_dropWhile (dueBy now) R)
    rw [List.length_append] at h2
    exact h2
  have hrun : updGo now true 64 0 st.event_buffer st.event_count []
      = (H ++ ((R.takeWhile (dueBy now)).map deactivate ++ (R.dropWhile (dueBy now) ++ J)),
         (R.dropWhile (dueBy now)).length,
         (R.takeWhile (dueBy now)).map (fun s => s.data)) := by
    rw [hbuf, hcount]
    rw [List.append_assoc]
    rw [show (64 : ℕ) = H.length + (R ++ J).length from by
      simp [hJlen]
      omega]
    rw [show (0 : ℕ) = ([] : List AbsoluteMidiEvent).length from rfl]
    rw [show H ++ (R ++ J) = ([] : List AbsoluteMidiEvent) ++ (H ++ (R ++ J)) from by simp]
    rw [updGo_skip now true H [] (R ++ J) R.length [] hH]
    rw [show (([] : List AbsoluteMidiEvent) ++ (H ++ (R ++ J))) = H ++ (R ++ J) from by simp]
    rw [show ([] : List AbsoluteMidiEvent).length + H.length = H.length by simp]
    rw [show (R ++ J).length = R.length + J.length from by simp]
    rw [updGo_emit now R H J [] hR]
    simp
  have hupd : update st now
      = ({ st with
            event_buffer := H ++ ((R.takeWhile (dueBy now)).map deactivate
              ++ (R.dropWhile (dueBy now) ++ J))
            event_count := (R.dropWhile (dueBy now)).length },
         (R.takeWhile (dueBy now)).map (fun s => s.data)) := by
    simp only [update]
    rw [hext, hrun]
  rw [hupd]
  refine ⟨rfl, ?_, rfl, ?_, ?_, ?_, hext⟩
  · show H ++ ((R.takeWhile (dueBy now)).map deactivate ++ (R.dropWhile (dueBy now) ++ J))
      = (H ++ (R.takeWhile (dueBy now)).map deactivate) ++ R.dropWhile (dueBy now)
        ++ List.replicate (64 - (H ++ (R.takeWhile (dueBy now)).map deactivate).length
            - (R.dropWhile (dueBy now)).length) emptySlot
    rw [show 64 - (H ++ (R.takeWhile (dueBy now)).map deactivate).length
          - (R.dropWhile (dueBy now)).length = 64 - H.length - R.length from by
      simp
      omega]
    rw [← hJ]
    simp
  · simp
    omega
  · intro z hz
    rcases List.mem_append.mp hz with h1 | h1
    · exact hH z h1
    · obtain ⟨w, _, rfl⟩ := List.mem_map.mp h1
      rfl
  · intro z hz
    exact hR z (List.Sublist.mem hz (List.dropWhile_sublist (dueBy now)))

lemma take_takeWhile_add (p : AbsoluteMidiEvent → Bool) (R : List AbsoluteMidiEvent)
    (k : ℕ) :
    R.take ((R.takeWhile p).length + k) = R.takeWhile p ++ (R.dropWhile p).take k := by
  nth_rewrite 2 [← List.takeWhile_append_dropWhile p R]
  rw [List.take_append]

lemma runUpdates_drain :
    ∀ (ts : List ℕ) (st : MidiScheduler) (H R : List AbsoluteMidiEvent)
      (acc : List (List ℕ)), DrainShape st H R →
      ∃ k, (ts.foldl (fun r t => ((update r.1 t).1, r.2 ++ (update r.1 t).2)) (st, acc)).2
        = acc ++ (R.take k).map (fun s => s.data) := by
  intro ts
  induction ts with
  | nil =>
    intro st H R acc _
    exact ⟨0, by simp⟩
  | cons t ts ih =>
    intro st H R acc h
    obtain ⟨hemit, hshape⟩ := DrainShape_update st H R t h
    rw [List.foldl_cons]
    dsimp only
    obtain ⟨k, hk⟩ := ih (update st t).1 _ _ (acc ++ (update st t).2) hshape
    refine ⟨(R.takeWhile (dueBy t)).length + k, ?_⟩
    rw [hk, hemit]
    rw [take_takeWhile_add (dueBy t) R k]
    simp

/-- C4 (amended): starting from the freshly constructed scheduler, if all
`schedule` calls happen before the first `update` (at most 64 of them,
each tagged with the hardware time of its call), then across any sequence
of `update` calls the messages reach the hardware as a prefix of the
stable sort of the scheduled events by absolute due time
(`(now + delta_ms) mod 2^32`), equal due times kept in insertion order.
In particular an earlier-scheduled event with a ≤ due time is always
emitted first.  Interleaving an `update` between `schedule` calls breaks
the guarantee (see the counterexample): a partial drain leaves inactive
holes that the insertion sort cannot move events across. -/
theorem C4_emission_order_amended (l : List (ℕ × ScheduledMidiEvent)) (hlen : l.length ≤ 64)
    (ts : List ℕ) :
    ∃ k, (runUpdates (runSchedules mkScheduler l) ts).2
      = ((stableSortByTime (l.map fun p => mkAbs p.1 p.2)).take k).map (fun s => s.data) := by
  have h0 : SchedShape mkScheduler [] := by
    refine ⟨?_, rfl, by norm_num, ?_, ?_, rfl⟩
    · show List.replicate 64 emptySlot = [] ++ List.replicate (64 - List.length []) emptySlot
      simp
    · intro s hs
      simp at hs
    · simp
  have h1 := SchedShape_runSchedules l mkScheduler [] h0 (by simpa using hlen)
  have h2 : DrainShape (runSchedules mkScheduler l) []
      (l.foldl (fun acc p => insLE (mkAbs p.1 p.2) acc) []) := by
    obtain ⟨hbuf, hcount, hle, hact, hpair, hext⟩ := h1
    refine ⟨?_, hcount, ?_, ?_, hact, hext⟩
    · rw [hbuf]
      simp
    · simpa using hle
    · intro s hs
      simp at hs
  obtain ⟨k, hk⟩ := runUpdates_drain ts _ [] _ [] h2
  refine ⟨k, ?_⟩
  have hsort : stableSortByTime (l.map fun p => mkAbs p.1 p.2)
      = l.foldl (fun acc p => insLE (mkAbs p.1 p.2) acc) [] := by
    unfold stableSortByTime
    rw [List.foldl_map]
  rw [hsort]
  exact hk

/-- Witness for the amended C4: two events scheduled at time 0 with deltas
10 and 20 ms, one update at time 30. -/
theorem C4_emission_order_amended_witness :
    ∃ k, (runUpdates (runSchedules mkScheduler [(0, c4e1), (0, c4e2)]) [30]).2
      = ((stableSortByTime ([(0, c4e1), (0, c4e2)].map fun p => mkAbs p.1 p.2)).take k).map
          (fun s => s.data) :=
  C4_emission_order_amended [(0, c4e1), (0, c4e2)] (by norm_num) [30]

end Gruvbok
